import Mathlib

/-!
Verification development for the Solidity formatter in `fmt/src/formatter.rs`.

The formatter is embedded shallowly:
* text is modelled as `Str := List Char` (the sources relevant to the claims are
  ASCII, so Rust's byte-based `s.len()` is recovered through `Char.utf8Size`);
* the mutable `Formatter` struct is split into the immutable context `Fmt`
  (source text, config, and the external semver normalizer) and the mutable
  state `FmtState` (output sink, indentation level, pending-indent flag,
  capture-buffer stack, current line length);
* each `write!`/`writeln!` of a fully formatted string is modelled as one
  `write_str` call; `IndentWriter` from the `indent_write` crate is modelled
  character by character by `iw`;
* the `Visitable`/`LineOfCode` dispatch lives in `fmt/src/visit.rs` and
  `fmt/src/loc.rs`, which are not part of the sources under study; those parts
  are modelled from the spec (one visit method per node kind, each node owning
  its source span, statement bodies copied through as a unit).
-/

namespace SolFmt

abbrev Str := List Char

/-- Configuration record, from `FormatterConfig` in `formatter.rs`. -/
structure FormatterConfig where
  line_length : Nat
  tab_width : Nat
  bracket_spacing : Bool
deriving DecidableEq, Repr

/-- `FormatterConfig::default()`: line length 80, tab width 4, no bracket spacing. -/
def FormatterConfig.default : FormatterConfig :=
  { line_length := 80, tab_width := 4, bracket_spacing := false }

/-- A source span. Rust's `Loc` is a triple `(file_no, start, end)`; the file
number is irrelevant to the formatter and omitted. `start`/`stop` are the
`loc.1`/`loc.2` components, indexing characters of the source. -/
structure Loc where
  start : Nat
  stop : Nat
deriving DecidableEq, Repr

structure Identifier where
  name : Str
deriving DecidableEq, Repr

structure StringLiteral where
  string : Str
deriving DecidableEq, Repr

structure DocComment where
  tag : Str
  value : Str
deriving DecidableEq, Repr

/-- A contract base; the formatter only uses its span (`base.loc`). -/
structure Base where
  loc : Loc
deriving DecidableEq, Repr

/-- `ContractTy` from the parse tree, with its `Display` rendering. -/
inductive ContractTy where
  | abstractContract
  | contract
  | interface
  | library
deriving DecidableEq, Repr

def ContractTy.display : ContractTy → Str
  | .abstractContract => "abstract contract".data
  | .contract => "contract".data
  | .interface => "interface".data
  | .library => "library".data

inductive FunctionTy where
  | constructor
  | function
  | fallback
  | receive
  | modifierFn
deriving DecidableEq, Repr

/-- Modelled from the spec: statement bodies are "copied through as a unit,
since statement-level re-layout is out of scope", so a statement is just its
source span. -/
structure Statement where
  loc : Loc
deriving DecidableEq, Repr

structure FunctionDefinition where
  doc : List DocComment
  ty : FunctionTy
  loc : Loc
  body : Option Statement
deriving DecidableEq, Repr

structure EnumDefinition where
  name : Identifier
  values : List Identifier
  loc : Loc
deriving DecidableEq, Repr

structure VariableDefinition where
  loc : Loc
deriving DecidableEq, Repr

/-- Members of an aggregate (contract-like) body. Modelled from the spec's
closed set of node variants: enumeration definitions, executable-unit
(function-like) definitions, and single-variable declarations. -/
inductive ContractPart where
  | enumDefinition (e : EnumDefinition)
  | functionDefinition (fd : FunctionDefinition)
  | variableDefinition (v : VariableDefinition)
deriving DecidableEq, Repr

/-- Modelled from the spec: the `LineOfCode` trait (in `fmt/src/loc.rs`, outside
the sources under study) — "each variant owns its children and its own source
span"; `loc()` returns the node's own span. -/
def ContractPart.loc : ContractPart → Loc
  | .enumDefinition e => e.loc
  | .functionDefinition fd => fd.loc
  | .variableDefinition v => v.loc

structure ContractDefinition where
  doc : List DocComment
  ty : ContractTy
  name : Identifier
  base : List Base
  parts : List ContractPart
deriving DecidableEq, Repr

/-- The three shapes of an `Import` directive, as in `solang::parser::pt`. -/
inductive ImportDir where
  | plain (path : StringLiteral)
  | globalSymbol (path : StringLiteral) (aliasId : Identifier)
  | rename (entries : List (Identifier × Option Identifier)) (fromPath : StringLiteral)
deriving DecidableEq, Repr

inductive SourceUnitPart where
  | pragmaDirective (ident : Identifier) (str : StringLiteral)
  | importDirective (imp : ImportDir)
  | contractDefinition (c : ContractDefinition)
  | enumDefinition (e : EnumDefinition)
  | functionDefinition (fd : FunctionDefinition)
  | variableDefinition (v : VariableDefinition)
deriving DecidableEq, Repr

structure SourceUnit where
  parts : List SourceUnitPart
deriving DecidableEq, Repr

/-- The immutable part of the `Formatter`: source text, configuration, and the
external version-range normalizer. The normalizer is modelled from the spec as
a pure function `(string) -> Option<NormalizedRange>` (it is the `semver`
crate's parse-and-display, an out-of-scope collaborator). -/
structure Fmt where
  source : Str
  config : FormatterConfig
  semver : Str → Option Str

/-- Mutable formatter state: `w` (the output sink written so far), `level`,
`pending_indent`, `bufs` (capture-buffer stack, head is the top), and
`current_line`. -/
structure FmtState where
  out : Str
  level : Nat
  pending_indent : Bool
  bufs : List (Nat × Str)
  current_line : Nat
deriving DecidableEq, Repr

/-- `Formatter::new`: level 0, pending indent set, empty buffer stack. -/
def initState : FmtState :=
  { out := [], level := 0, pending_indent := true, bufs := [], current_line := 0 }

/-- Byte length of a chunk of text, matching Rust's `str::len` on UTF-8 bytes. -/
def byteLen (s : Str) : Nat := (s.map Char.utf8Size).sum

/-- Rust's `s.ends_with('\n')`. -/
def endsWithNL (s : Str) : Bool := s.getLast? == some '\n'

/-- `IndentWriter` of the `indent_write` crate, character by character: starting
with `need_indent = true`, the indent is written before the first character of
each line, but newline characters themselves are never indented (blank lines
stay empty). -/
def iw (ind : Str) : Bool → Str → Str
  | _, [] => []
  | true, c :: cs => if c = '\n' then c :: iw ind true cs else ind ++ c :: iw ind false cs
  | false, c :: cs => c :: iw ind (c = '\n') cs

/-- The indent string `" ".repeat(config.tab_width * level)`. -/
def indentOf (f : Fmt) (level : Nat) : Str :=
  List.replicate (f.config.tab_width * level) ' '

/-- `<Formatter as Write>::write_str`: writes go to the top capture buffer if
one exists (using its level), else to the real sink (using the global level);
if `pending_indent` the text runs through an `IndentWriter`; `current_line`
grows by the raw byte length of `s`; `pending_indent` becomes true (and
`current_line` resets) exactly when `s` ends with a newline. -/
def write_str (f : Fmt) (st : FmtState) (s : Str) : FmtState :=
  match st.bufs with
  | [] =>
      { st with
        out := st.out ++ (if st.pending_indent then iw (indentOf f st.level) true s else s),
        pending_indent := endsWithNL s,
        current_line := if endsWithNL s then 0 else st.current_line + byteLen s }
  | (l, b) :: rest =>
      { st with
        bufs := (l, b ++ (if st.pending_indent then iw (indentOf f l) true s else s)) :: rest,
        pending_indent := endsWithNL s,
        current_line := if endsWithNL s then 0 else st.current_line + byteLen s }

/-- `Formatter::level`: the level acted on — the top capture entry's when
capturing, else the global one. -/
def currentLevel (st : FmtState) : Nat :=
  match st.bufs with
  | (l, _) :: _ => l
  | [] => st.level

/-- `Formatter::indent`: saturating add on the current level. -/
def indent (st : FmtState) (delta : Nat) : FmtState :=
  match st.bufs with
  | (l, b) :: rest => { st with bufs := (l + delta, b) :: rest }
  | [] => { st with level := st.level + delta }

/-- `Formatter::dedent`: saturating subtraction on the current level. -/
def dedent (st : FmtState) (delta : Nat) : FmtState :=
  match st.bufs with
  | (l, b) :: rest => { st with bufs := (l - delta, b) :: rest }
  | [] => { st with level := st.level - delta }

abbrev lbrace : Char := '{'
abbrev rbrace : Char := '}'

/-- `Formatter::write_opening_bracket`: an opening brace followed by a space iff
`bracket_spacing`. -/
def write_opening_bracket (f : Fmt) (st : FmtState) : FmtState :=
  write_str f st (if f.config.bracket_spacing then [lbrace, ' '] else [lbrace])

/-- `Formatter::write_closing_bracket`. -/
def write_closing_bracket (f : Fmt) (st : FmtState) : FmtState :=
  write_str f st (if f.config.bracket_spacing then [' ', rbrace] else [rbrace])

/-- `Formatter::write_empty_brackets`. -/
def write_empty_brackets (f : Fmt) (st : FmtState) : FmtState :=
  write_str f st (if f.config.bracket_spacing then [lbrace, ' ', rbrace] else [lbrace, rbrace])

/-- Rust's `[String]::join(separator)`. -/
def joinSep (sep : Str) : List Str → Str
  | [] => []
  | [x] => x
  | x :: y :: rest => x ++ sep ++ joinSep sep (y :: rest)

/-- `Formatter::len_indented_with_current`: indentation (if pending) plus the
current line length plus the byte length of `s`. Note the source reads the
global `self.level` field here, not `self.level()`. -/
def len_indented_with_current (f : Fmt) (st : FmtState) (s : Str) : Nat :=
  (if st.pending_indent then f.config.tab_width * st.level else 0) +
    st.current_line + byteLen s

/-- `Formatter::is_separated_multiline`: the joined rendering is longer than
`line_length`. -/
def is_separated_multiline (f : Fmt) (st : FmtState) (items : List Str) (sep : Str) : Bool :=
  decide (f.config.line_length < len_indented_with_current f st (joinSep sep items))

/-- Rust's `str::trim_end` (for the ASCII separators used here). -/
def trimEnd (s : Str) : Str := (s.reverse.dropWhile Char.isWhitespace).reverse

/-- The multiline loop of `Formatter::write_separated`: each item is written,
and every item except the last is followed by the separator with trailing
whitespace trimmed plus a line break. -/
def write_separated_ml (f : Fmt) (sep : Str) (st : FmtState) : List Str → FmtState
  | [] => st
  | [x] => write_str f st x
  | x :: y :: rest =>
      write_separated_ml f sep
        (write_str f (write_str f st x) (trimEnd sep ++ ['\n'])) (y :: rest)

/-- `Formatter::write_separated`. -/
def write_separated (f : Fmt) (st : FmtState) (items : List Str) (sep : Str)
    (multiline : Bool) : FmtState :=
  if multiline then write_separated_ml f sep st items
  else write_str f st (joinSep sep items)

/-- The push performed by `Formatter::visit_to_string`
(`self.bufs.push((0, String::new()))`): a fresh capture entry with level 0 and
an empty captured string. -/
def begin_capture (st : FmtState) : FmtState :=
  { st with bufs := (0, []) :: st.bufs }

/-- `Visitor::visit_source`: verbatim copy-through of the span's source text. -/
def visit_source (f : Fmt) (st : FmtState) (loc : Loc) : FmtState :=
  write_str f st ((f.source.drop loc.start).take (loc.stop - loc.start))

/-- `Formatter::visit_to_string` applied to a `Loc` (its only uses: contract
bases and constructor signatures). Pushes `(0, "")`, visits the span, pops the
captured text. The source `unwrap`s the pop; the empty-stack fallback below is
unreachable because the inner visit preserves the stack. -/
def visit_to_string_loc (f : Fmt) (st : FmtState) (loc : Loc) : Str × FmtState :=
  let st1 := visit_source f (begin_capture st) loc
  match st1.bufs with
  | (_, r) :: rest => (r, { st1 with bufs := rest })
  | [] => ([], st1)

/-- `Visitor::visit_doc_comment`: `/// @<tag> <value>`. -/
def visit_doc_comment (f : Fmt) (st : FmtState) (d : DocComment) : FmtState :=
  write_str f st ("/// @".data ++ d.tag ++ [' '] ++ d.value)

/-- The `for doc_comment in doc` loops of `visit_contract`/`visit_function`:
each doc comment on its own line. -/
def write_docs (f : Fmt) (st : FmtState) : List DocComment → FmtState
  | [] => st
  | d :: rest => write_docs f (write_str f (visit_doc_comment f st d) ['\n']) rest

/-- `Visitor::visit_pragma`: `pragma <name>` then the value, run through the
semver normalizer when the name is `solidity` (falling back to the verbatim
literal on failure), then `;`. -/
def visit_pragma (f : Fmt) (st : FmtState) (ident : Identifier) (str : StringLiteral) : FmtState :=
  let st := write_str f st ("pragma ".data ++ ident.name)
  if ident.name = "solidity".data then
    match f.semver str.string with
    | some v => write_str f st (v ++ [';'])
    | none => write_str f st (str.string ++ [';'])
  else
    write_str f st (str.string ++ [';'])

/-- `Visitor::visit_import_plain`. -/
def visit_import_plain (f : Fmt) (st : FmtState) (path : StringLiteral) : FmtState :=
  write_str f st ("import \"".data ++ path.string ++ "\";".data)

/-- `Visitor::visit_import_global`. -/
def visit_import_global (f : Fmt) (st : FmtState) (path : StringLiteral)
    (aliasId : Identifier) : FmtState :=
  write_str f st ("import \"".data ++ path.string ++ "\" as ".data ++ aliasId.name ++ [';'])

/-- One rendered rename entry: `name` or `name as alias`. -/
def renameEntry (p : Identifier × Option Identifier) : Str :=
  p.1.name ++ (match p.2 with
    | none => []
    | some a => " as ".data ++ a.name)

/-- Insert into a sorted list, before the first element that is ≥ — the
earlier-listed of two equal entries stays first, as in a stable sort. -/
def insertSorted (x : Str) : List Str → List Str
  | [] => [x]
  | y :: ys => if decide (x ≤ y) then x :: y :: ys else y :: insertSorted x ys

/-- Rust's stable `Vec::sort` on rendered entry strings, modelled as a stable
insertion sort (any two stable comparison sorts agree elementwise; Rust's
`String` order is lexicographic on UTF-8 bytes, which coincides with the
lexicographic order on the character lists). -/
def sortStrings : List Str → List Str
  | [] => []
  | x :: xs => insertSorted x (sortStrings xs)

/-- The rendered and sorted entry list of `visit_import_renames`
(`imports.sort()` on the formatted strings). -/
def sortedRenames (entries : List (Identifier × Option Identifier)) : List Str :=
  sortStrings (entries.map renameEntry)

/-- The bracketed part of `visit_import_renames`: the `multiline` flag is
computed once and drives both the opening and the closing bracket (multiline:
a bare `{` plus line break, indent, the exploded list, dedent, a line break
plus bare `}`; single-line: the bracket-spacing forms around the joined list),
followed by ` from "<path>";`. -/
def renames_layout (f : Fmt) (st : FmtState) (items : List Str)
    (fromPath : StringLiteral) : FmtState :=
  match is_separated_multiline f st items ", ".data with
  | true =>
      write_str f
        (write_str f
          (dedent (write_separated f (indent (write_str f st [lbrace, '\n']) 1)
            items ", ".data true) 1) ['\n', rbrace])
        (" from \"".data ++ fromPath.string ++ "\";".data)
  | false =>
      write_str f
        (write_closing_bracket f
          (write_separated f (write_opening_bracket f st) items ", ".data false))
        (" from \"".data ++ fromPath.string ++ "\";".data)

/-- `Visitor::visit_import_renames`: `import `, then the sorted entry list in
brackets, laid out by `renames_layout`. -/
def visit_import_renames (f : Fmt) (st : FmtState)
    (entries : List (Identifier × Option Identifier)) (fromPath : StringLiteral) : FmtState :=
  renames_layout f (write_str f st "import ".data) (sortedRenames entries) fromPath

/-- The value loop of `visit_enum`: each value on its own line, all but the
last suffixed by a comma. -/
def enum_loop (f : Fmt) (st : FmtState) : List Identifier → FmtState
  | [] => st
  | [v] => write_str f (write_str f st v.name) ['\n']
  | v :: w :: rest =>
      enum_loop f (write_str f (write_str f (write_str f st v.name) [',']) ['\n']) (w :: rest)

/-- `Visitor::visit_enum`. -/
def visit_enum (f : Fmt) (st : FmtState) (e : EnumDefinition) : FmtState :=
  let st := write_str f st ("enum ".data ++ e.name.name ++ [' '])
  if e.values = [] then
    write_empty_brackets f st
  else
    let st := write_str f st [lbrace, '\n']
    let st := indent st 1
    let st := enum_loop f st e.values
    let st := dedent st 1
    write_str f st [rbrace]

/-- Modelled from the spec: `visit_statement` (default in the `Visitor` trait
of `fmt/src/visit.rs`) copies the statement's span through verbatim. -/
def visit_statement (f : Fmt) (st : FmtState) (b : Statement) : FmtState :=
  visit_source f st b.loc

/-- The signature emission of `visit_function`: constructor signatures are
captured to a string and right-trimmed (their spans carry trailing spaces),
all other signatures are copied through directly. -/
def function_signature (f : Fmt) (st : FmtState) (fd : FunctionDefinition) : FmtState :=
  if fd.ty = FunctionTy.constructor then
    write_str f (visit_to_string_loc f st fd.loc).2 (trimEnd (visit_to_string_loc f st fd.loc).1)
  else
    visit_source f st fd.loc

/-- `Visitor::visit_function`: doc comments, then the signature, then a space
and the body, or a terminating `;`. -/
def visit_function (f : Fmt) (st : FmtState) (fd : FunctionDefinition) : FmtState :=
  match fd.body with
  | some body =>
      visit_statement f (write_str f (function_signature f (write_docs f st fd.doc) fd) [' ']) body
  | none => write_str f (function_signature f (write_docs f st fd.doc) fd) [';']

/-- `Visitor::visit_var_def`: verbatim copy-through plus `;`. -/
def visit_var_def (f : Fmt) (st : FmtState) (v : VariableDefinition) : FmtState :=
  write_str f (visit_source f st v.loc) [';']

/-- Modelled from the spec: the `Visitable` dispatch for aggregate body members
(one visit method per node kind, in `fmt/src/visit.rs`). -/
def visit_contract_part (f : Fmt) (st : FmtState) : ContractPart → FmtState
  | .enumDefinition e => visit_enum f st e
  | .functionDefinition fd => visit_function f st fd
  | .variableDefinition v => visit_var_def f st v

/-- The newline count of `visit_contract`'s blank-line policy:
`source[part.loc().2 + 1 .. next_part.loc().1].matches('\n').count()`. -/
def memberGapNewlines (f : Fmt) (p q : ContractPart) : Nat :=
  (((f.source.drop (p.loc.stop + 1)).take (q.loc.start - (p.loc.stop + 1))).filter
    (fun c => c = '\n')).length

/-- The member loop of `visit_contract`: each member is visited and followed by
a line break; between two consecutive members an extra line break is written
when the source gap past the member's span holds more than one newline. (The
source's `else writeln!` arm for a missing peeked element is dead code: the
peek exists exactly when the member is not the last.) -/
def contract_parts_loop (f : Fmt) (st : FmtState) : List ContractPart → FmtState
  | [] => st
  | [p] => write_str f (visit_contract_part f st p) ['\n']
  | p :: q :: rest =>
      let st := write_str f (visit_contract_part f st p) ['\n']
      let st := if 1 < memberGapNewlines f p q then write_str f st ['\n'] else st
      contract_parts_loop f st (q :: rest)

/-- The base-list rendering of `visit_contract`: each base's span captured to a
string via `visit_to_string`, threading the formatter state left to right. -/
def render_bases (f : Fmt) (st : FmtState) : List Base → List Str × FmtState
  | [] => ([], st)
  | b :: rest =>
      let p := visit_to_string_loc f st b.loc
      let q := render_bases f p.2 rest
      (p.1 :: q.1, q.2)

/-- The base-list layout of `visit_contract`: after `is`, the captured base
renderings laid out single- or multi-line, the flag computed once and driving
both the pre- and post-list writes. -/
def bases_layout (f : Fmt) (p : List Str × FmtState) : FmtState :=
  match is_separated_multiline f p.2 p.1 ", ".data with
  | true =>
      write_str f
        (dedent (write_separated f (indent (write_str f p.2 ['\n']) 1) p.1 ", ".data true) 1)
        ['\n']
  | false =>
      write_str f (write_separated f (write_str f p.2 [' ']) p.1 ", ".data false) [' ']

/-- The `is <bases>` segment of `visit_contract` (skipped for an empty base
list). -/
def contract_bases (f : Fmt) (st : FmtState) (bases : List Base) : FmtState :=
  if bases = [] then st
  else bases_layout f (render_bases f (write_str f st "is".data) bases)

/-- The body emission of `visit_contract`: the empty-bracket form for an empty
body, else a brace block around the member loop. -/
def contract_body (f : Fmt) (st : FmtState) (parts : List ContractPart) : FmtState :=
  if parts = [] then
    write_empty_brackets f st
  else
    write_str f (dedent (contract_parts_loop f (indent (write_str f st [lbrace, '\n']) 1) parts) 1)
      [rbrace]

/-- `Visitor::visit_contract`: doc comments, `<kind> <name> `, the base list,
then the body. -/
def visit_contract (f : Fmt) (st : FmtState) (c : ContractDefinition) : FmtState :=
  contract_body f
    (contract_bases f
      (write_str f (write_docs f st c.doc) (c.ty.display ++ [' '] ++ c.name.name ++ [' ']))
      c.base)
    c.parts

/-- The `is_pragma` closure of `visit_source_unit`. -/
def is_pragma : SourceUnitPart → Bool
  | .pragmaDirective _ _ => true
  | _ => false

/-- The `is_import` closure of `visit_source_unit`. -/
def is_import_dir : SourceUnitPart → Bool
  | .importDirective _ => true
  | _ => false

/-- The `is_declaration` closure of `visit_source_unit`: neither a pragma nor
an import. -/
def is_declaration (u : SourceUnitPart) : Bool :=
  !(is_pragma u || is_import_dir u)

/-- Modelled from the spec: the `Visitable` dispatch for top-level units. -/
def visit_source_unit_part (f : Fmt) (st : FmtState) : SourceUnitPart → FmtState
  | .pragmaDirective i s => visit_pragma f st i s
  | .importDirective (.plain path) => visit_import_plain f st path
  | .importDirective (.globalSymbol path aliasId) => visit_import_global f st path aliasId
  | .importDirective (.rename entries fromPath) => visit_import_renames f st entries fromPath
  | .contractDefinition c => visit_contract f st c
  | .enumDefinition e => visit_enum f st e
  | .functionDefinition fd => visit_function f st fd
  | .variableDefinition v => visit_var_def f st v

/-- The unit loop of `Visitor::visit_source_unit`: every unit is followed by a
line break, plus an extra one when the unit is a non-last declaration, or a
pragma, or the next unit is a declaration (`!rest.isEmpty` mirrors
`i != source_unit_parts - 1`, and `rest.head?` the peeked next unit). -/
def source_unit_loop (f : Fmt) (st : FmtState) : List SourceUnitPart → FmtState
  | [] => st
  | u :: rest =>
      let st := write_str f (visit_source_unit_part f st u) ['\n']
      let st :=
        if (!rest.isEmpty && is_declaration u) || is_pragma u ||
            ((rest.head?.map is_declaration).getD false) then
          write_str f st ['\n']
        else st
      source_unit_loop f st rest

/-- `Visitor::visit_source_unit`. -/
def visit_source_unit (f : Fmt) (st : FmtState) (su : SourceUnit) : FmtState :=
  source_unit_loop f st su.parts

/-- One formatting run: a fresh `Formatter` consuming a whole source unit. -/
def format_source_unit (f : Fmt) (su : SourceUnit) : FmtState :=
  visit_source_unit f initState su

/-! ### Specification-side definitions

The following definitions restate parts of the spec in a clean form, to be
compared with the faithful translations above. -/

/-- An aggregate-body emission where the separator written between two adjacent
members is a blank line (`"\n\n"`) or a plain line break (`"\n"`), chosen by an
arbitrary policy `cond` — the spec's view of the member loop. -/
def contract_body_with (f : Fmt) (cond : ContractPart → ContractPart → Bool)
    (st : FmtState) : List ContractPart → FmtState
  | [] => st
  | [p] => write_str f (visit_contract_part f st p) ['\n']
  | p :: q :: rest =>
      contract_body_with f cond
        (write_str f (visit_contract_part f st p)
          (if cond p q then ['\n', '\n'] else ['\n'])) (q :: rest)

/-- `r` holds of every adjacent pair of the list. -/
def adjPairsB (r : ContractPart → ContractPart → Bool) : List ContractPart → Bool
  | p :: q :: rest => r p q && adjPairsB r (q :: rest)
  | _ => true

/-- Modelled from the spec (claim C1): the number of blank source lines between
two adjacent member spans — one fewer than the newline characters found
strictly between the spans. -/
def blankLinesBetweenSpans (f : Fmt) (p q : ContractPart) : Nat :=
  (((f.source.drop p.loc.stop).take (q.loc.start - p.loc.stop)).filter
    (fun c => c = '\n')).length - 1

/-- The separator condition actually implemented by `visit_source_unit`: extra
blank line after a non-last declaration, after any pragma, or before a
declaration. -/
def unitSepCond (u : SourceUnitPart) (next : Option SourceUnitPart) : Bool :=
  (next.isSome && is_declaration u) || is_pragma u ||
    ((next.map is_declaration).getD false)

/-- Modelled from the spec (claim C5): same as `unitSepCond` except that a
pragma directive gets an extra blank line only when "followed by anything". -/
def unitSepCondClaim (u : SourceUnitPart) (next : Option SourceUnitPart) : Bool :=
  (next.isSome && is_declaration u) || (is_pragma u && next.isSome) ||
    ((next.map is_declaration).getD false)

/-- The spec's view of the top-level loop: each unit followed by `"\n"`, plus
an extra `"\n"` when the policy `cond` fires on the unit and its successor. -/
def source_unit_with (f : Fmt) (cond : SourceUnitPart → Option SourceUnitPart → Bool)
    (st : FmtState) : List SourceUnitPart → FmtState
  | [] => st
  | u :: rest =>
      source_unit_with f cond
        (write_str f (visit_source_unit_part f st u)
          ('\n' :: (if cond u rest.head? then ['\n'] else []))) rest

/-! ### Concrete fixtures used by counterexamples and witnesses -/

/-- A contract body with exactly one blank source line between its two members:
`contract C {\n    uint a;\n\n    uint b;\n}`. Spans: `uint a` at `[17,23)`
(the `;` sits at index 23), `uint b` at `[30,36)`. -/
def exSrc : Str :=
  "contract C ".data ++ [lbrace] ++ "\n    uint a;\n\n    uint b;\n".data ++ [rbrace]

def exF : Fmt := ⟨exSrc, FormatterConfig.default, fun _ => none⟩

def exA : ContractPart := .variableDefinition ⟨⟨17, 23⟩⟩

def exB : ContractPart := .variableDefinition ⟨⟨30, 36⟩⟩

/-- The state of the formatter inside a contract body: one level of
indentation pending. -/
def exSt : FmtState := ⟨[], 1, true, [], 0⟩

/-- A file whose only unit is a pragma directive. -/
def exU5 : SourceUnitPart := .pragmaDirective ⟨"solidity".data⟩ ⟨"0.8.0".data⟩

def exF5 : Fmt := ⟨[], FormatterConfig.default, fun _ => none⟩

/-- A writer state with global indentation level 1 and no capture in flight. -/
def stC6 : FmtState := ⟨[], 1, true, [], 0⟩

/-- `bracket_spacing = true` configuration over an empty source. -/
def exF7 : Fmt := ⟨[], ⟨80, 4, true⟩, fun _ => none⟩

def exF7w : Fmt := ⟨[], ⟨80, 4, false⟩, fun _ => none⟩

/-- A narrow configuration (line length 10, tab width 2) used to force
multiline layout. -/
def exStC3 : FmtState := ⟨[], 1, false, [], 3⟩

def exFC3 : Fmt := ⟨[], ⟨10, 2, false⟩, fun _ => none⟩

def exItemsC3 : List Str := ["aa".data, "bb".data]

def exF4 : Fmt := ⟨[], FormatterConfig.default, fun _ => none⟩

def exXs4 : List (Identifier × Option Identifier) :=
  [(⟨"B".data⟩, none), (⟨"A".data⟩, some ⟨"C".data⟩)]

def exYs4 : List (Identifier × Option Identifier) :=
  [(⟨"A".data⟩, some ⟨"C".data⟩), (⟨"B".data⟩, none)]

def exXs10 : List (Identifier × Option Identifier) :=
  [(⟨"Beta".data⟩, none), (⟨"Alpha".data⟩, none)]

def exSt10 : FmtState := ⟨[], 0, false, [], 0⟩

/-! ### Basic writer lemmas -/

theorem iw_nil (b : Bool) (s : Str) : iw [] b s = s := by
  induction s generalizing b with
  | nil => cases b <;> rfl
  | cons c cs ih =>
    cases b with
    | true =>
      by_cases h : c = '\n' <;> simp [iw, h, ih]
    | false => simp [iw, ih]

theorem iw_false_noNL (ind : Str) : ∀ s : Str, (∀ c ∈ s, c ≠ '\n') → iw ind false s = s := by
  intro s
  induction s with
  | nil => intro _; rfl
  | cons c cs ih =>
    intro h
    have hc : c ≠ '\n' := h c (List.mem_cons_self c cs)
    simp [iw, hc, ih fun d hd => h d (List.mem_cons_of_mem c hd)]

theorem iw_true_noNL (ind : Str) (s : Str) (h1 : s ≠ []) (h2 : ∀ c ∈ s, c ≠ '\n') :
    iw ind true s = ind ++ s := by
  cases s with
  | nil => exact absurd rfl h1
  | cons c cs =>
    have hc : c ≠ '\n' := h2 c (List.mem_cons_self c cs)
    simp [iw, hc, iw_false_noNL ind cs fun d hd => h2 d (List.mem_cons_of_mem c hd)]

theorem endsWithNL_noNL (s : Str) (h : ∀ c ∈ s, c ≠ '\n') : endsWithNL s = false := by
  unfold endsWithNL
  cases hl : s.getLast? with
  | none => rfl
  | some c =>
    have hc : c ∈ s := List.mem_of_mem_getLast? hl
    simp [h c hc]

theorem endsWithNL_concat (s : Str) : endsWithNL (s ++ ['\n']) = true := by
  unfold endsWithNL
  rw [List.getLast?_concat]
  rfl

/-- `write_str` on a state with no capture in flight and no pending indent:
text is appended verbatim. -/
theorem write_str_false (f : Fmt) (st : FmtState) (s : Str)
    (hb : st.bufs = []) (hp : st.pending_indent = false) :
    write_str f st s =
      { st with
        out := st.out ++ s,
        pending_indent := endsWithNL s,
        current_line := if endsWithNL s then 0 else st.current_line + byteLen s } := by
  obtain ⟨o, lv, pi, bufs, cl⟩ := st
  simp only at hb hp
  subst hb hp
  rfl

/-- `write_str` of newline-free, nonempty text on a fresh line: the ambient
indentation is emitted first. -/
theorem write_str_true_noNL (f : Fmt) (st : FmtState) (s : Str)
    (hb : st.bufs = []) (hp : st.pending_indent = true)
    (h1 : s ≠ []) (h2 : ∀ c ∈ s, c ≠ '\n') :
    write_str f st s =
      { st with
        out := st.out ++ indentOf f st.level ++ s,
        pending_indent := false,
        current_line := st.current_line + byteLen s } := by
  obtain ⟨o, lv, pi, bufs, cl⟩ := st
  simp only at hb hp
  subst hb hp
  simp [write_str, iw_true_noNL _ _ h1 h2, endsWithNL_noNL _ h2]

/-- Two consecutive line-break writes amount to one write of a double line
break, in any state. -/
theorem write_nl_nl (f : Fmt) (st : FmtState) :
    write_str f (write_str f st ['\n']) ['\n'] = write_str f st ['\n', '\n'] := by
  obtain ⟨o, lv, pi, bufs, cl⟩ := st
  cases bufs with
  | nil => cases pi <;> simp [write_str, iw, endsWithNL, byteLen]
  | cons hd tl =>
    obtain ⟨l, b⟩ := hd
    cases pi <;> simp [write_str, iw, endsWithNL, byteLen]

/-! ### Loop equivalences -/

/-- The member loop of `visit_contract` is the separator-driven body emission
whose blank-line policy is "more than one newline in the source gap". -/
theorem contract_loop_eq_body_with (f : Fmt) :
    ∀ (parts : List ContractPart) (st : FmtState),
      contract_parts_loop f st parts =
        contract_body_with f (fun p q => decide (1 < memberGapNewlines f p q)) st parts := by
  intro parts
  induction parts with
  | nil => intro st; rfl
  | cons p tail ih =>
    intro st
    cases tail with
    | nil => rfl
    | cons q rest =>
      simp only [contract_parts_loop, contract_body_with]
      by_cases h : 1 < memberGapNewlines f p q
      · simp only [h, if_pos, decide_eq_true_eq, write_nl_nl]
        exact ih _
      · simp only [h, if_neg, decide_eq_true_eq, if_false]
        simpa using ih _

/-- Pointwise implication between adjacent-pair predicates. -/
theorem adjPairsB_imp (r s : ContractPart → ContractPart → Bool)
    (hrs : ∀ p q, r p q = true → s p q = true) :
    ∀ parts, adjPairsB r parts = true → adjPairsB s parts = true := by
  intro parts
  induction parts with
  | nil => intro _; rfl
  | cons p tail ih =>
    cases tail with
    | nil => intro _; rfl
    | cons q rest =>
      intro h
      simp only [adjPairsB, Bool.and_eq_true] at h ⊢
      exact ⟨hrs p q h.1, ih h.2⟩

/-- Two blank-line policies that agree on every adjacent pair of members give
the same body emission. -/
theorem contract_body_with_congr (f : Fmt) (c₁ c₂ : ContractPart → ContractPart → Bool) :
    ∀ (parts : List ContractPart) (st : FmtState),
      adjPairsB (fun p q => c₁ p q == c₂ p q) parts = true →
      contract_body_with f c₁ st parts = contract_body_with f c₂ st parts := by
  intro parts
  induction parts with
  | nil => intro st _; rfl
  | cons p tail ih =>
    intro st h
    cases tail with
    | nil => rfl
    | cons q rest =>
      simp only [adjPairsB, Bool.and_eq_true, beq_iff_eq] at h
      simp only [contract_body_with, h.1]
      exact ih _ (by simpa [adjPairsB] using h.2)

/-- `rest.head?.isSome` and `!rest.isEmpty` agree. -/
theorem head?_isSome_eq_not_isEmpty (rest : List SourceUnitPart) :
    rest.head?.isSome = !rest.isEmpty := by
  cases rest <;> rfl

/-- The top-level unit loop is the separator-driven emission with policy
`unitSepCond`. -/
theorem source_unit_loop_eq_with (f : Fmt) :
    ∀ (units : List SourceUnitPart) (st : FmtState),
      source_unit_loop f st units = source_unit_with f unitSepCond st units := by
  intro units
  induction units with
  | nil => intro st; rfl
  | cons u rest ih =>
    intro st
    simp only [source_unit_loop, source_unit_with, unitSepCond,
      head?_isSome_eq_not_isEmpty]
    by_cases h :
        ((!rest.isEmpty && is_declaration u) || is_pragma u ||
          ((rest.head?.map is_declaration).getD false)) = true
    · simp only [h, if_true, write_nl_nl]
      exact ih _
    · rw [Bool.not_eq_true] at h
      simp only [h, Bool.false_eq_true, if_false]
      exact ih _

/-! ### Capture-buffer stack discipline -/

theorem bufs_write_str (f : Fmt) (st : FmtState) (s : Str) (h : st.bufs = []) :
    (write_str f st s).bufs = [] := by
  obtain ⟨o, lv, pi, bufs, cl⟩ := st
  simp only at h
  subst h
  rfl

theorem bufs_indent (st : FmtState) (d : Nat) (h : st.bufs = []) :
    (indent st d).bufs = [] := by
  obtain ⟨o, lv, pi, bufs, cl⟩ := st
  simp only at h
  subst h
  rfl

theorem bufs_dedent (st : FmtState) (d : Nat) (h : st.bufs = []) :
    (dedent st d).bufs = [] := by
  obtain ⟨o, lv, pi, bufs, cl⟩ := st
  simp only at h
  subst h
  rfl

/-- `visit_to_string` restores the capture stack exactly: the entry it pushes
is the entry it pops. -/
theorem bufs_visit_to_string_loc (f : Fmt) (st : FmtState) (loc : Loc) :
    (visit_to_string_loc f st loc).2.bufs = st.bufs := by
  obtain ⟨o, lv, pi, bufs, cl⟩ := st
  cases pi <;> rfl

theorem bufs_write_opening_bracket (f : Fmt) (st : FmtState) (h : st.bufs = []) :
    (write_opening_bracket f st).bufs = [] := bufs_write_str f st _ h

theorem bufs_write_closing_bracket (f : Fmt) (st : FmtState) (h : st.bufs = []) :
    (write_closing_bracket f st).bufs = [] := bufs_write_str f st _ h

theorem bufs_write_empty_brackets (f : Fmt) (st : FmtState) (h : st.bufs = []) :
    (write_empty_brackets f st).bufs = [] := bufs_write_str f st _ h

theorem bufs_write_separated_ml (f : Fmt) (sep : Str) :
    ∀ (items : List Str) (st : FmtState), st.bufs = [] →
      (write_separated_ml f sep st items).bufs = []
  | [], _, h => h
  | [_], _, h => bufs_write_str _ _ _ h
  | _ :: y :: rest, _, h =>
    bufs_write_separated_ml f sep (y :: rest) _
      (bufs_write_str _ _ _ (bufs_write_str _ _ _ h))

theorem bufs_write_separated (f : Fmt) (st : FmtState) (items : List Str) (sep : Str)
    (ml : Bool) (h : st.bufs = []) : (write_separated f st items sep ml).bufs = [] := by
  unfold write_separated
  cases ml with
  | true => exact bufs_write_separated_ml f sep items st h
  | false => exact bufs_write_str _ _ _ h

theorem bufs_visit_doc_comment (f : Fmt) (st : FmtState) (d : DocComment)
    (h : st.bufs = []) : (visit_doc_comment f st d).bufs = [] := bufs_write_str _ _ _ h

theorem bufs_write_docs (f : Fmt) :
    ∀ (ds : List DocComment) (st : FmtState), st.bufs = [] → (write_docs f st ds).bufs = []
  | [], _, h => h
  | d :: rest, st, h =>
    bufs_write_docs f rest _ (bufs_write_str _ _ _ (bufs_visit_doc_comment f st d h))

theorem bufs_visit_pragma (f : Fmt) (st : FmtState) (i : Identifier) (s : StringLiteral)
    (h : st.bufs = []) : (visit_pragma f st i s).bufs = [] := by
  have h1 : (write_str f st ("pragma ".data ++ i.name)).bufs = [] := bufs_write_str _ _ _ h
  simp only [visit_pragma]
  split
  · split <;> exact bufs_write_str _ _ _ h1
  · exact bufs_write_str _ _ _ h1

theorem bufs_visit_source (f : Fmt) (st : FmtState) (loc : Loc) (h : st.bufs = []) :
    (visit_source f st loc).bufs = [] := bufs_write_str _ _ _ h

theorem bufs_renames_layout (f : Fmt) (st : FmtState) (items : List Str)
    (fromPath : StringLiteral) (h : st.bufs = []) :
    (renames_layout f st items fromPath).bufs = [] := by
  unfold renames_layout
  cases is_separated_multiline f st items ", ".data with
  | true =>
    apply bufs_write_str
    apply bufs_write_str
    apply bufs_dedent
    apply bufs_write_separated
    apply bufs_indent
    exact bufs_write_str _ _ _ h
  | false =>
    apply bufs_write_str
    apply bufs_write_closing_bracket
    apply bufs_write_separated
    exact bufs_write_opening_bracket _ _ h

theorem bufs_visit_import_renames (f : Fmt) (st : FmtState)
    (entries : List (Identifier × Option Identifier)) (fromPath : StringLiteral)
    (h : st.bufs = []) : (visit_import_renames f st entries fromPath).bufs = [] :=
  bufs_renames_layout f _ _ _ (bufs_write_str _ _ _ h)

theorem bufs_enum_loop (f : Fmt) :
    ∀ (vs : List Identifier) (st : FmtState), st.bufs = [] → (enum_loop f st vs).bufs = []
  | [], _, h => h
  | [_], _, h => bufs_write_str _ _ _ (bufs_write_str _ _ _ h)
  | _ :: w :: rest, _, h =>
    bufs_enum_loop f (w :: rest) _
      (bufs_write_str _ _ _ (bufs_write_str _ _ _ (bufs_write_str _ _ _ h)))

theorem bufs_visit_enum (f : Fmt) (st : FmtState) (e : EnumDefinition) (h : st.bufs = []) :
    (visit_enum f st e).bufs = [] := by
  unfold visit_enum
  have h1 := bufs_write_str f st ("enum ".data ++ e.name.name ++ [' ']) h
  split
  · exact bufs_write_empty_brackets _ _ h1
  · apply bufs_write_str
    apply bufs_dedent
    apply bufs_enum_loop
    apply bufs_indent
    exact bufs_write_str _ _ _ h1

theorem bufs_function_signature (f : Fmt) (st : FmtState) (fd : FunctionDefinition)
    (h : st.bufs = []) : (function_signature f st fd).bufs = [] := by
  unfold function_signature
  split
  · exact bufs_write_str _ _ _ ((bufs_visit_to_string_loc f st fd.loc).trans h)
  · exact bufs_visit_source _ _ _ h

theorem bufs_visit_function (f : Fmt) (st : FmtState) (fd : FunctionDefinition)
    (h : st.bufs = []) : (visit_function f st fd).bufs = [] := by
  have h1 := bufs_function_signature f (write_docs f st fd.doc) fd (bufs_write_docs f fd.doc st h)
  unfold visit_function
  cases fd.body with
  | some body => exact bufs_visit_source _ _ _ (bufs_write_str _ _ _ h1)
  | none => exact bufs_write_str _ _ _ h1

theorem bufs_visit_var_def (f : Fmt) (st : FmtState) (v : VariableDefinition)
    (h : st.bufs = []) : (visit_var_def f st v).bufs = [] :=
  bufs_write_str _ _ _ (bufs_visit_source _ _ _ h)

theorem bufs_visit_contract_part (f : Fmt) (st : FmtState) (p : ContractPart)
    (h : st.bufs = []) : (visit_contract_part f st p).bufs = [] := by
  cases p with
  | enumDefinition e => exact bufs_visit_enum f st e h
  | functionDefinition fd => exact bufs_visit_function f st fd h
  | variableDefinition v => exact bufs_visit_var_def f st v h

theorem bufs_contract_parts_loop (f : Fmt) :
    ∀ (parts : List ContractPart) (st : FmtState), st.bufs = [] →
      (contract_parts_loop f st parts).bufs = [] := by
  intro parts
  induction parts with
  | nil => intro st h; exact h
  | cons p tail ih =>
    intro st h
    cases tail with
    | nil => exact bufs_write_str _ _ _ (bufs_visit_contract_part f st p h)
    | cons q rest =>
      simp only [contract_parts_loop]
      apply ih
      have h1 := bufs_write_str f _ ['\n'] (bufs_visit_contract_part f st p h)
      split
      · exact bufs_write_str _ _ _ h1
      · exact h1

/-- Rendering the base list restores the capture stack exactly. -/
theorem bufs_render_bases (f : Fmt) :
    ∀ (bs : List Base) (st : FmtState), (render_bases f st bs).2.bufs = st.bufs
  | [], _ => rfl
  | b :: rest, st =>
    (bufs_render_bases f rest _).trans (bufs_visit_to_string_loc f st b.loc)

theorem bufs_bases_layout (f : Fmt) (p : List Str × FmtState) (h : p.2.bufs = []) :
    (bases_layout f p).bufs = [] := by
  unfold bases_layout
  cases is_separated_multiline f p.2 p.1 ", ".data with
  | true =>
    apply bufs_write_str
    apply bufs_dedent
    apply bufs_write_separated
    apply bufs_indent
    exact bufs_write_str _ _ _ h
  | false =>
    apply bufs_write_str
    apply bufs_write_separated
    exact bufs_write_str _ _ _ h

theorem bufs_contract_bases (f : Fmt) (st : FmtState) (bases : List Base)
    (h : st.bufs = []) : (contract_bases f st bases).bufs = [] := by
  unfold contract_bases
  split
  · exact h
  · exact bufs_bases_layout f _ ((bufs_render_bases f bases _).trans (bufs_write_str _ _ _ h))

theorem bufs_contract_body (f : Fmt) (st : FmtState) (parts : List ContractPart)
    (h : st.bufs = []) : (contract_body f st parts).bufs = [] := by
  unfold contract_body
  split
  · exact bufs_write_empty_brackets _ _ h
  · apply bufs_write_str
    apply bufs_dedent
    apply bufs_contract_parts_loop
    apply bufs_indent
    exact bufs_write_str _ _ _ h

theorem bufs_visit_contract (f : Fmt) (st : FmtState) (c : ContractDefinition)
    (h : st.bufs = []) : (visit_contract f st c).bufs = [] :=
  bufs_contract_body f _ c.parts
    (bufs_contract_bases f _ c.base (bufs_write_str _ _ _ (bufs_write_docs f c.doc st h)))

theorem bufs_visit_import_plain (f : Fmt) (st : FmtState) (path : StringLiteral)
    (h : st.bufs = []) : (visit_import_plain f st path).bufs = [] := bufs_write_str _ _ _ h

theorem bufs_visit_import_global (f : Fmt) (st : FmtState) (path : StringLiteral)
    (aliasId : Identifier) (h : st.bufs = []) :
    (visit_import_global f st path aliasId).bufs = [] := bufs_write_str _ _ _ h

theorem bufs_visit_source_unit_part (f : Fmt) (st : FmtState) (u : SourceUnitPart)
    (h : st.bufs = []) : (visit_source_unit_part f st u).bufs = [] := by
  cases u with
  | pragmaDirective i s => exact bufs_visit_pragma f st i s h
  | importDirective imp =>
    cases imp with
    | plain path => exact bufs_visit_import_plain f st path h
    | globalSymbol path aliasId => exact bufs_visit_import_global f st path aliasId h
    | rename entries fromPath => exact bufs_visit_import_renames f st entries fromPath h
  | contractDefinition c => exact bufs_visit_contract f st c h
  | enumDefinition e => exact bufs_visit_enum f st e h
  | functionDefinition fd => exact bufs_visit_function f st fd h
  | variableDefinition v => exact bufs_visit_var_def f st v h

theorem bufs_source_unit_loop (f : Fmt) :
    ∀ (units : List SourceUnitPart) (st : FmtState), st.bufs = [] →
      (source_unit_loop f st units).bufs = [] := by
  intro units
  induction units with
  | nil => intro st h; exact h
  | cons u rest ih =>
    intro st h
    simp only [source_unit_loop]
    apply ih
    have h1 := bufs_write_str f _ ['\n'] (bufs_visit_source_unit_part f st u h)
    split
    · exact bufs_write_str _ _ _ h1
    · exact h1

/-! ### Output shape of the multiline separator loop -/

/-- From a fresh-line state, the multiline loop emits the ambient indentation
and then the items joined by "trimmed separator, line break, indentation":
one item per line. -/
theorem ws_ml_true (f : Fmt) (sep : Str) :
    ∀ (items : List Str) (st : FmtState), st.bufs = [] → st.pending_indent = true →
      items ≠ [] → (∀ x ∈ items, x ≠ [] ∧ ∀ c ∈ x, c ≠ '\n') →
      (write_separated_ml f sep st items).out =
          st.out ++ indentOf f st.level ++
            joinSep (trimEnd sep ++ '\n' :: indentOf f st.level) items ∧
        (write_separated_ml f sep st items).pending_indent = false ∧
        (write_separated_ml f sep st items).bufs = [] ∧
        (write_separated_ml f sep st items).level = st.level := by
  intro items
  induction items with
  | nil => intro st _ _ hne _; exact absurd rfl hne
  | cons x tail ih =>
    intro st hb hp _ hit
    have hx := hit x (List.mem_cons_self x tail)
    cases tail with
    | nil =>
      show (write_str f st x).out = _ ∧ (write_str f st x).pending_indent = false ∧
        (write_str f st x).bufs = [] ∧ (write_str f st x).level = st.level
      rw [write_str_true_noNL f st x hb hp hx.1 hx.2]
      exact ⟨by simp [joinSep], rfl, hb, rfl⟩
    | cons y rest =>
      have step :
          write_separated_ml f sep st (x :: y :: rest) =
            write_separated_ml f sep
              (write_str f (write_str f st x) (trimEnd sep ++ ['\n'])) (y :: rest) := rfl
      rw [step, write_str_true_noNL f st x hb hp hx.1 hx.2]
      rw [write_str_false f _ _ (by simpa using hb) rfl]
      have ihy := ih
        { st with
          out := (st.out ++ indentOf f st.level ++ x) ++ (trimEnd sep ++ ['\n']),
          pending_indent := endsWithNL (trimEnd sep ++ ['\n']),
          current_line :=
            if endsWithNL (trimEnd sep ++ ['\n']) then 0
            else (st.current_line + byteLen x) + byteLen (trimEnd sep ++ ['\n']) }
        (by simpa using hb) (by simp [endsWithNL_concat]) (by simp)
        (fun z hz => hit z (List.mem_cons_of_mem x hz))
      refine ⟨?_, ihy.2.1, ihy.2.2.1, ihy.2.2.2⟩
      rw [ihy.1]
      simp [joinSep, List.append_assoc]

/-- From a mid-line state, the multiline loop writes the first item in place
and each further item on its own indented line. -/
theorem ws_ml_false (f : Fmt) (sep : Str) :
    ∀ (items : List Str) (st : FmtState), st.bufs = [] → st.pending_indent = false →
      (∀ x ∈ items, x ≠ [] ∧ ∀ c ∈ x, c ≠ '\n') →
      (write_separated_ml f sep st items).out =
          st.out ++ joinSep (trimEnd sep ++ '\n' :: indentOf f st.level) items ∧
        (write_separated_ml f sep st items).pending_indent = false ∧
        (write_separated_ml f sep st items).bufs = [] ∧
        (write_separated_ml f sep st items).level = st.level := by
  intro items st hb hp hit
  cases items with
  | nil => exact ⟨by simp [write_separated_ml, joinSep], hp, hb, rfl⟩
  | cons x tail =>
    have hx := hit x (List.mem_cons_self x tail)
    cases tail with
    | nil =>
      show (write_str f st x).out = _ ∧ (write_str f st x).pending_indent = false ∧
        (write_str f st x).bufs = [] ∧ (write_str f st x).level = st.level
      rw [write_str_false f st x hb hp]
      exact ⟨by simp [joinSep], by simp [endsWithNL_noNL x hx.2], hb, rfl⟩
    | cons y rest =>
      have step :
          write_separated_ml f sep st (x :: y :: rest) =
            write_separated_ml f sep
              (write_str f (write_str f st x) (trimEnd sep ++ ['\n'])) (y :: rest) := rfl
      rw [step, write_str_false f st x hb hp]
      rw [write_str_false f _ _ (by simpa using hb) (by simp [endsWithNL_noNL x hx.2])]
      have ihy := ws_ml_true f sep (y :: rest)
        { st with
          out := (st.out ++ x) ++ (trimEnd sep ++ ['\n']),
          pending_indent := endsWithNL (trimEnd sep ++ ['\n']),
          current_line :=
            if endsWithNL (trimEnd sep ++ ['\n']) then 0
            else (if endsWithNL x then 0 else st.current_line + byteLen x) +
              byteLen (trimEnd sep ++ ['\n']) }
        (by simpa using hb) (by simp [endsWithNL_concat]) (by simp)
        (fun z hz => hit z (List.mem_cons_of_mem x hz))
      refine ⟨?_, ihy.2.1, ihy.2.2.1, ihy.2.2.2⟩
      rw [ihy.1]
      simp [joinSep, List.append_assoc]

/-! ### Claim theorems -/

/-- C2: between adjacent sibling body members the formatter inserts exactly one
blank output line iff the count of newline characters in
`source[a_end+1 .. b_start]` exceeds one, and inserts none otherwise — the
member loop equals the separator-driven emission with exactly that policy. -/
theorem c2_blank_line_policy (f : Fmt) (st : FmtState) (parts : List ContractPart) :
    contract_parts_loop f st parts =
      contract_body_with f (fun p q => decide (1 < memberGapNewlines f p q)) st parts :=
  contract_loop_eq_body_with f parts st

/-- C1 counterexample: a body whose two members have exactly one blank source
line between their spans (two newline characters in the gap). The claim
predicts no blank output line, but the formatter emits one. -/
theorem c1_counterexample :
    blankLinesBetweenSpans exF exA exB = 1 ∧
    (contract_parts_loop exF exSt [exA, exB]).out = "    uint a;\n\n    uint b;\n".data ∧
    (contract_body_with exF (fun p q => decide (2 ≤ blankLinesBetweenSpans exF p q)) exSt
      [exA, exB]).out = "    uint a;\n    uint b;\n".data ∧
    (contract_parts_loop exF exSt [exA, exB]).out ≠
      (contract_body_with exF (fun p q => decide (2 ≤ blankLinesBetweenSpans exF p q)) exSt
        [exA, exB]).out := by
  decide

/-- C1 amended: for members whose separating gap holds exactly one more newline
than it holds blank lines (the usual layout, one member per line), the output
has no blank line between two members when the source had zero blank lines
between their spans, and exactly one blank line when the source had one or
more. -/
theorem c1_blank_lines_amended (f : Fmt) (st : FmtState) (parts : List ContractPart)
    (h : adjPairsB (fun p q => memberGapNewlines f p q == blankLinesBetweenSpans f p q + 1)
      parts = true) :
    contract_parts_loop f st parts =
      contract_body_with f (fun p q => decide (1 ≤ blankLinesBetweenSpans f p q)) st parts := by
  rw [contract_loop_eq_body_with]
  apply contract_body_with_congr
  revert h
  apply adjPairsB_imp
  intro p q hpq
  have he : memberGapNewlines f p q = blankLinesBetweenSpans f p q + 1 := by
    simpa using hpq
  simp only [he, Nat.lt_succ_iff, beq_iff_eq]

theorem c1_blank_lines_amended_witness :
    adjPairsB (fun p q => memberGapNewlines exF p q == blankLinesBetweenSpans exF p q + 1)
        [exA, exB] = true ∧
    contract_parts_loop exF exSt [exA, exB] =
      contract_body_with exF (fun p q => decide (1 ≤ blankLinesBetweenSpans exF p q)) exSt
        [exA, exB] :=
  ⟨by decide, c1_blank_lines_amended exF exSt [exA, exB] (by decide)⟩

/-- C5 counterexample: a file whose only unit is a pragma directive. The claim
asks for an extra blank line only when the pragma "is followed by anything",
but the formatter emits the extra blank line even for a final pragma. -/
theorem c5_counterexample :
    is_pragma exU5 = true ∧
    (source_unit_loop exF5 initState [exU5]).out = "pragma solidity0.8.0;\n\n".data ∧
    (source_unit_with exF5 unitSepCondClaim initState [exU5]).out =
      "pragma solidity0.8.0;\n".data ∧
    (source_unit_loop exF5 initState [exU5]).out ≠
      (source_unit_with exF5 unitSepCondClaim initState [exU5]).out := by
  decide

/-- C5 amended: after each top-level unit a line break is emitted, and an
additional blank separating line exactly when the unit just emitted is a
non-last declaration-like unit, or is a pragma directive (whether or not
anything follows), or the next unit is declaration-like. -/
theorem c5_source_unit_separators (f : Fmt) (st : FmtState) (units : List SourceUnitPart) :
    source_unit_loop f st units = source_unit_with f unitSepCond st units :=
  source_unit_loop_eq_with f units st

/-- C6 counterexample: on a writer with global level 1 and no capture in
flight, `begin_capture` pushes an entry with level 0, not the current level. -/
theorem c6_counterexample :
    currentLevel stC6 = 1 ∧
    (begin_capture stC6).bufs = [(0, [])] ∧
    (begin_capture stC6).bufs ≠ [(currentLevel stC6, [])] := by
  decide

/-- C6 amended: every call to `begin_capture` pushes an entry with indentation
level 0 (regardless of the current level) paired with an empty captured
string; consequently a captured span renders with no indentation at all. -/
theorem c6_begin_capture_amended :
    (∀ st : FmtState, (begin_capture st).bufs = (0, []) :: st.bufs) ∧
    (∀ (f : Fmt) (st : FmtState) (loc : Loc),
      (visit_to_string_loc f st loc).1 =
        (f.source.drop loc.start).take (loc.stop - loc.start)) := by
  refine ⟨fun st => rfl, fun f st loc => ?_⟩
  obtain ⟨o, lv, pi, bufs, cl⟩ := st
  cases pi with
  | false => rfl
  | true =>
    simp [visit_to_string_loc, visit_source, begin_capture, write_str, indentOf, iw_nil]

/-- C8: a full formatting run ends with an empty capture-buffer stack, and
each `visit_to_string` call restores the stack it found — the entry it pushes
is popped by that same call, in LIFO order. -/
theorem c8_capture_stack_empty :
    (∀ (f : Fmt) (su : SourceUnit), (format_source_unit f su).bufs = []) ∧
    (∀ (f : Fmt) (st : FmtState) (loc : Loc),
      (visit_to_string_loc f st loc).2.bufs = st.bufs) :=
  ⟨fun f su => bufs_source_unit_loop f su.parts initState rfl,
   fun f st loc => bufs_visit_to_string_loc f st loc⟩

/-- C3: the layout engine keeps a list single-line iff the pending indentation
plus the current line length plus the joined length stays within
`line_length`; a single-line list is written as one joined fragment, and a
multiline list puts every item on its own line, each non-final line terminated
by the trimmed separator — items are never packed several per line. -/
theorem c3_layout_decision (f : Fmt) (st : FmtState) (items : List Str) (sep : Str)
    (hb : st.bufs = []) (hp : st.pending_indent = false)
    (hit : ∀ x ∈ items, x ≠ [] ∧ ∀ c ∈ x, c ≠ '\n') :
    (is_separated_multiline f st items sep = false ↔
      len_indented_with_current f st (joinSep sep items) ≤ f.config.line_length) ∧
    write_separated f st items sep false = write_str f st (joinSep sep items) ∧
    (write_separated f st items sep true).out =
      st.out ++ joinSep (trimEnd sep ++ '\n' :: indentOf f st.level) items := by
  refine ⟨?_, rfl, ?_⟩
  · simp [is_separated_multiline, Nat.not_lt]
  · have h := ws_ml_false f sep items st hb hp hit
    simpa [write_separated] using h.1

theorem c3_layout_decision_witness :
    (is_separated_multiline exFC3 exStC3 exItemsC3 ", ".data = false ↔
      len_indented_with_current exFC3 exStC3 (joinSep ", ".data exItemsC3) ≤
        exFC3.config.line_length) ∧
    write_separated exFC3 exStC3 exItemsC3 ", ".data false =
      write_str exFC3 exStC3 (joinSep ", ".data exItemsC3) ∧
    (write_separated exFC3 exStC3 exItemsC3 ", ".data true).out =
      exStC3.out ++ joinSep (trimEnd ", ".data ++ '\n' :: indentOf exFC3 exStC3.level)
        exItemsC3 :=
  c3_layout_decision exFC3 exStC3 exItemsC3 ", ".data rfl rfl (by decide)

theorem insertSorted_perm (x : Str) : ∀ l : List Str, (insertSorted x l).Perm (x :: l)
  | [] => List.Perm.refl _
  | y :: ys => by
    unfold insertSorted
    split
    · exact List.Perm.refl _
    · exact ((insertSorted_perm x ys).cons y).trans (List.Perm.swap x y ys)

theorem sortStrings_perm : ∀ l : List Str, (sortStrings l).Perm l
  | [] => List.Perm.refl _
  | x :: xs => (insertSorted_perm x _).trans ((sortStrings_perm xs).cons x)

theorem insertSorted_sorted (x : Str) :
    ∀ l : List Str, List.Sorted (· ≤ ·) l → List.Sorted (· ≤ ·) (insertSorted x l) := by
  intro l
  induction l with
  | nil => intro _; simp [insertSorted]
  | cons y ys ih =>
    intro hs
    rw [List.sorted_cons] at hs
    unfold insertSorted
    split
    · rename_i hxy
      rw [decide_eq_true_eq] at hxy
      rw [List.sorted_cons]
      refine ⟨?_, List.sorted_cons.2 hs⟩
      intro b hb
      rcases List.mem_cons.1 hb with hby | hbys
      · exact hby ▸ hxy
      · exact le_trans hxy (hs.1 b hbys)
    · rename_i hxy
      rw [decide_eq_true_eq] at hxy
      rw [List.sorted_cons]
      refine ⟨?_, ih hs.2⟩
      intro b hb
      rcases List.mem_cons.1 ((insertSorted_perm x ys).mem_iff.1 hb) with hbx | hbys
      · exact hbx ▸ le_of_not_le hxy
      · exact hs.1 b hbys

theorem sortStrings_sorted : ∀ l : List Str, List.Sorted (· ≤ ·) (sortStrings l)
  | [] => List.sorted_nil
  | x :: xs => insertSorted_sorted x _ (sortStrings_sorted xs)

/-- The rendered rename entries come out of `imports.sort()` sorted. -/
theorem sortedRenames_sorted (xs : List (Identifier × Option Identifier)) :
    List.Sorted (· ≤ ·) (sortedRenames xs) :=
  sortStrings_sorted (xs.map renameEntry)

/-- Sorting is stable under permutations of the entry list: two permuted entry
lists produce the same sorted rendering. -/
theorem sortedRenames_perm_eq (xs ys : List (Identifier × Option Identifier))
    (h : xs.Perm ys) : sortedRenames xs = sortedRenames ys := by
  apply List.eq_of_perm_of_sorted (r := fun a b : Str => a ≤ b)
  · exact (sortStrings_perm _).trans ((h.map renameEntry).trans (sortStrings_perm _).symm)
  · exact sortedRenames_sorted xs
  · exact sortedRenames_sorted ys

/-- C4: the entries emitted between the braces of a renamed-list import are in
non-decreasing lexicographic order, and the emitted output is the same for
every permutation of the input entry list. -/
theorem c4_sorted_import_renames (f : Fmt) (st : FmtState)
    (xs ys : List (Identifier × Option Identifier)) (fromPath : StringLiteral)
    (h : xs.Perm ys) :
    List.Sorted (· ≤ ·) (sortedRenames xs) ∧
    visit_import_renames f st xs fromPath = visit_import_renames f st ys fromPath := by
  refine ⟨sortedRenames_sorted xs, ?_⟩
  unfold visit_import_renames
  rw [sortedRenames_perm_eq xs ys h]

theorem c4_sorted_import_renames_witness :
    List.Sorted (· ≤ ·) (sortedRenames exXs4) ∧
    visit_import_renames exF4 initState exXs4 ⟨"x.sol".data⟩ =
      visit_import_renames exF4 initState exYs4 ⟨"x.sol".data⟩ :=
  c4_sorted_import_renames exF4 initState exXs4 exYs4 ⟨"x.sol".data⟩ (List.Perm.swap _ _ _)

theorem endsWithNL_append_space (s : Str) : endsWithNL (s ++ [' ']) = false := by
  simp [endsWithNL, List.getLast?_concat]

theorem endsWithNL_append (s t : Str) (h : t ≠ []) :
    endsWithNL (s ++ t) = endsWithNL t := by
  unfold endsWithNL
  rw [List.getLast?_append_of_ne_nil _ h]

theorem endsWithNL_cons (c : Char) (t : Str) (h : t ≠ []) :
    endsWithNL (c :: t) = endsWithNL t := by
  rw [← List.singleton_append, endsWithNL_append _ _ h]

/-- C7 counterexample: an empty renamed-import list under `bracket_spacing =
true` renders as `{  }` — the opening form `{ ` directly followed by the
closing form ` }` — not as the empty-bracket form `{ }` the claim requires for
every bracketed empty construct. -/
theorem c7_counterexample :
    exF7.config.bracket_spacing = true ∧
    (visit_import_renames exF7 initState [] ⟨"x.sol".data⟩).out =
      "import \x7b  \x7d from \"x.sol\";".data ∧
    (visit_import_renames exF7 initState [] ⟨"x.sol".data⟩).out ≠
      "import \x7b \x7d from \"x.sol\";".data := by
  decide

/-- C7 amended: an empty aggregate body and an empty enumeration render via
the empty-bracket form (`{}` or `{ }` by `bracket_spacing`), but an empty
renamed-import list renders as the opening bracket form directly followed by
the closing bracket form — `{}` when `bracket_spacing` is false and `{  }`
(two interior spaces) when it is true. -/
theorem c7_empty_brackets :
    (∀ (f : Fmt) (st : FmtState) (ty : ContractTy) (nm : Identifier),
      st.bufs = [] → st.pending_indent = false →
      (visit_contract f st ⟨[], ty, nm, [], []⟩).out =
        st.out ++ (ty.display ++ [' '] ++ nm.name ++ [' ']) ++
          (if f.config.bracket_spacing then [lbrace, ' ', rbrace] else [lbrace, rbrace])) ∧
    (∀ (f : Fmt) (st : FmtState) (nm : Identifier) (l : Loc),
      st.bufs = [] → st.pending_indent = false →
      (visit_enum f st ⟨nm, [], l⟩).out =
        st.out ++ ("enum ".data ++ nm.name ++ [' ']) ++
          (if f.config.bracket_spacing then [lbrace, ' ', rbrace] else [lbrace, rbrace])) ∧
    (∀ (f : Fmt) (st : FmtState) (path : StringLiteral),
      st.bufs = [] → st.pending_indent = false →
      st.current_line + 7 ≤ f.config.line_length →
      (visit_import_renames f st [] path).out =
        st.out ++ "import ".data ++
          (if f.config.bracket_spacing then [lbrace, ' '] else [lbrace]) ++
          (if f.config.bracket_spacing then [' ', rbrace] else [rbrace]) ++
          (" from \"".data ++ path.string ++ "\";".data)) := by
  refine ⟨?_, ?_, ?_⟩
  · intro f st ty nm hb hp
    have he : endsWithNL (ty.display ++ [' '] ++ nm.name ++ [' ']) = false := by
      rw [endsWithNL_append _ _ (by simp)]
      rfl
    show (write_empty_brackets f
      (write_str f st (ty.display ++ [' '] ++ nm.name ++ [' ']))).out = _
    unfold write_empty_brackets
    rw [write_str_false f st _ hb hp]
    rw [write_str_false f _ _ (by simpa using hb) (by simpa using he)]
  · intro f st nm l hb hp
    have he : endsWithNL ("enum ".data ++ nm.name ++ [' ']) = false := by
      rw [endsWithNL_append _ _ (by simp)]
      rfl
    show (write_empty_brackets f
      (write_str f st ("enum ".data ++ nm.name ++ [' ']))).out = _
    unfold write_empty_brackets
    rw [write_str_false f st _ hb hp]
    rw [write_str_false f _ _ (by simpa using hb) (by simpa using he)]
  · intro f st path hb hp hlen
    obtain ⟨o, lv, pi, bufs, cl⟩ := st
    simp only at hb hp
    subst hb hp
    show (renames_layout f (write_str f ⟨o, lv, false, [], cl⟩ "import ".data)
      (sortedRenames []) path).out = _
    have h0 : len_indented_with_current f (write_str f ⟨o, lv, false, [], cl⟩ "import ".data)
        (joinSep ", ".data (sortedRenames [])) = 0 + (cl + 7) := rfl
    have hml : is_separated_multiline f (write_str f ⟨o, lv, false, [], cl⟩ "import ".data)
        (sortedRenames []) ", ".data = false := by
      unfold is_separated_multiline
      rw [h0, decide_eq_false_iff_not, Nat.not_lt]
      simpa using hlen
    simp only [renames_layout, hml]
    unfold write_opening_bracket write_closing_bracket
    cases hbs : f.config.bracket_spacing with
    | false =>
      simp only [hbs, Bool.false_eq_true, if_false]
      simp [lbrace, rbrace, write_str, write_separated, endsWithNL, byteLen, joinSep,
        sortedRenames, sortStrings, iw, List.append_assoc]
    | true =>
      simp only [hbs, if_true]
      simp [lbrace, rbrace, write_str, write_separated, endsWithNL, byteLen, joinSep,
        sortedRenames, sortStrings, iw, List.append_assoc]

theorem c7_empty_brackets_witness :
    (visit_contract exF7 ⟨[], 0, false, [], 0⟩ ⟨[], .contract, ⟨"C".data⟩, [], []⟩).out =
      ([] : Str) ++ ((ContractTy.contract).display ++ [' '] ++ "C".data ++ [' ']) ++
        (if exF7.config.bracket_spacing then [lbrace, ' ', rbrace] else [lbrace, rbrace]) ∧
    (visit_enum exF7w ⟨[], 0, false, [], 5⟩ ⟨⟨"E".data⟩, [], ⟨0, 0⟩⟩).out =
      ([] : Str) ++ ("enum ".data ++ "E".data ++ [' ']) ++
        (if exF7w.config.bracket_spacing then [lbrace, ' ', rbrace] else [lbrace, rbrace]) ∧
    (visit_import_renames exF7 ⟨[], 0, false, [], 0⟩ [] ⟨"y.sol".data⟩).out =
      ([] : Str) ++ "import ".data ++
        (if exF7.config.bracket_spacing then [lbrace, ' '] else [lbrace]) ++
        (if exF7.config.bracket_spacing then [' ', rbrace] else [rbrace]) ++
        (" from \"".data ++ ("y.sol".data : Str) ++ "\";".data) :=
  ⟨c7_empty_brackets.1 exF7 ⟨[], 0, false, [], 0⟩ .contract ⟨"C".data⟩ rfl rfl,
   c7_empty_brackets.2.1 exF7w ⟨[], 0, false, [], 5⟩ ⟨"E".data⟩ ⟨0, 0⟩ rfl rfl,
   c7_empty_brackets.2.2 exF7 ⟨[], 0, false, [], 0⟩ ⟨"y.sol".data⟩ rfl rfl (by decide)⟩

theorem dedent_nil (st : FmtState) (d : Nat) (h : st.bufs = []) :
    dedent st d = { st with level := st.level - d } := by
  obtain ⟨o, lv, pi, bufs, cl⟩ := st
  simp only at h
  subst h
  rfl

theorem pending_write_str (f : Fmt) (st : FmtState) (s : Str) :
    (write_str f st s).pending_indent = endsWithNL s := by
  obtain ⟨o, lv, pi, bufs, cl⟩ := st
  cases bufs with
  | nil => rfl
  | cons hd tl =>
    obtain ⟨l, b⟩ := hd
    rfl

/-- C10: a renamed-list import laid out multi-line opens with a bare `{`
directly followed by a line break and closes with a line break directly
followed by a bare `}`; the right-hand side below never consults the
`bracket_spacing` flag `b`, so the multi-line rendering is independent of it —
the spacing-dependent bracket forms occur only in the single-line layout. -/
theorem c10_multiline_import_renames (src : Str) (ll tw : Nat) (sv : Str → Option Str)
    (b : Bool) (st : FmtState) (xs : List (Identifier × Option Identifier))
    (path : StringLiteral)
    (hb : st.bufs = []) (hp : st.pending_indent = false)
    (hne : sortedRenames xs ≠ [])
    (hit : ∀ x ∈ sortedRenames xs, x ≠ [] ∧ ∀ c ∈ x, c ≠ '\n')
    (hml : is_separated_multiline (Fmt.mk src (FormatterConfig.mk ll tw b) sv)
      (write_str (Fmt.mk src (FormatterConfig.mk ll tw b) sv) st "import ".data)
      (sortedRenames xs) ", ".data = true) :
    (visit_import_renames (Fmt.mk src (FormatterConfig.mk ll tw b) sv) st xs path).out =
      st.out ++ "import ".data ++
        (lbrace :: '\n' :: List.replicate (tw * (st.level + 1)) ' ') ++
        joinSep ([','] ++ '\n' :: List.replicate (tw * (st.level + 1)) ' ')
          (sortedRenames xs) ++
        ('\n' :: rbrace :: (" from \"".data ++ path.string ++ "\";".data)) := by
  obtain ⟨o, lv, pi, bufs, cl⟩ := st
  simp only at hb hp
  subst hb hp
  show (renames_layout (Fmt.mk src (FormatterConfig.mk ll tw b) sv)
    (write_str (Fmt.mk src (FormatterConfig.mk ll tw b) sv) ⟨o, lv, false, [], cl⟩
      "import ".data) (sortedRenames xs) path).out = _
  simp only [renames_layout, hml]
  obtain ⟨hout, hpi2, hbufs2, hlev2⟩ :=
    ws_ml_true (Fmt.mk src (FormatterConfig.mk ll tw b) sv) ", ".data (sortedRenames xs)
      (indent (write_str (Fmt.mk src (FormatterConfig.mk ll tw b) sv)
        (write_str (Fmt.mk src (FormatterConfig.mk ll tw b) sv) ⟨o, lv, false, [], cl⟩
          "import ".data) [lbrace, '\n']) 1)
      rfl rfl hne hit
  rw [show write_separated (Fmt.mk src (FormatterConfig.mk ll tw b) sv)
      (indent (write_str (Fmt.mk src (FormatterConfig.mk ll tw b) sv)
        (write_str (Fmt.mk src (FormatterConfig.mk ll tw b) sv) ⟨o, lv, false, [], cl⟩
          "import ".data) [lbrace, '\n']) 1) (sortedRenames xs) ", ".data true =
    write_separated_ml (Fmt.mk src (FormatterConfig.mk ll tw b) sv) ", ".data
      (indent (write_str (Fmt.mk src (FormatterConfig.mk ll tw b) sv)
        (write_str (Fmt.mk src (FormatterConfig.mk ll tw b) sv) ⟨o, lv, false, [], cl⟩
          "import ".data) [lbrace, '\n']) 1) (sortedRenames xs) from rfl]
  rw [dedent_nil _ _ hbufs2]
  rw [write_str_false _ _ _ (by exact bufs_write_str _ _ _ (by simpa using hbufs2))
    (by rw [pending_write_str]; rfl)]
  rw [write_str_false _ _ _ (by simpa using hbufs2) (by simpa using hpi2)]
  simp only [hout, hlev2]
  have ht : trimEnd ", ".data = [','] := rfl
  have hi : indentOf (Fmt.mk src (FormatterConfig.mk ll tw b) sv)
      (indent (write_str (Fmt.mk src (FormatterConfig.mk ll tw b) sv)
        (write_str (Fmt.mk src (FormatterConfig.mk ll tw b) sv) ⟨o, lv, false, [], cl⟩
          "import ".data) [lbrace, '\n']) 1).level = List.replicate (tw * (lv + 1)) ' ' := rfl
  rw [ht, hi]
  simp [write_str, indent, endsWithNL, byteLen, iw, lbrace, rbrace, List.append_assoc]

theorem c10_multiline_import_renames_witness :
    (visit_import_renames (Fmt.mk [] (FormatterConfig.mk 10 2 true) (fun _ => none))
      exSt10 exXs10 ⟨"a.sol".data⟩).out =
      exSt10.out ++ "import ".data ++
        (lbrace :: '\n' :: List.replicate (2 * (exSt10.level + 1)) ' ') ++
        joinSep ([','] ++ '\n' :: List.replicate (2 * (exSt10.level + 1)) ' ')
          (sortedRenames exXs10) ++
        ('\n' :: rbrace :: (" from \"".data ++ ("a.sol".data : Str) ++ "\";".data)) :=
  c10_multiline_import_renames [] 10 2 (fun _ => none) true exSt10 exXs10 ⟨"a.sol".data⟩
    rfl rfl (by decide) (by decide) (by decide)

end SolFmt
